import Mathlib

/-
Shallow embedding of `src/main.py`, a TCP server for Teltonika GPS/AVL
devices.  Wire bytes are modelled as naturals; where a claim depends on the
fact that a byte is < 256 this is carried as an explicit `isBytes`
hypothesis.  Python exceptions (IndexError on `data[i]`, `struct.error` on a
short `struct.unpack` slice) are modelled as `none` / `.raised` outcomes.
The `datetime.utcfromtimestamp(...).isoformat()` conversion of the record
timestamp is modelled by keeping the raw millisecond value (the conversion
is a pure injective formatting step in the protocol's operating range and no
claim depends on the rendered string).
-/

/-- Big-endian unsigned value of a byte string, as `struct.unpack` with an
unsigned format character computes it. -/
def beVal (bs : List Nat) : Nat := bs.foldl (fun a b => 256 * a + b) 0

/-- Two's-complement reading of a `w`-bit big-endian value, as
`struct.unpack` with a signed format character (`!i`, `!h`) computes it. -/
def signedVal (w : Nat) (v : Nat) : Int :=
  if v < 2 ^ (w - 1) then (v : Int) else (v : Int) - 2 ^ w

/-- The slice `data[0:n]` together with the exact-length check that
`struct.unpack` performs: `some` of the first `n` bytes when at least `n`
are available, otherwise `none` (Python raises `struct.error`). -/
def readBytes (n : Nat) (data : List Nat) : Option (List Nat) :=
  if n ≤ data.length then some (data.take n) else none

/-- Every entry of the list is a wire byte. -/
def isBytes (l : List Nat) : Prop := ∀ b ∈ l, b < 256

/-- Python `dict` assignment `m[k] = v` on an insertion-ordered dict:
overwrites in place when the key exists, otherwise appends. -/
def dictSet (m : List (Nat × Nat)) (k v : Nat) : List (Nat × Nat) :=
  if m.any (fun p => p.1 == k) then m.map (fun p => if p.1 == k then (k, v) else p)
  else m ++ [(k, v)]

/-- Python `dict` lookup `m.get(k)`. -/
def dictGet (m : List (Nat × Nat)) (k : Nat) : Option Nat :=
  (m.find? (fun p => p.1 == k)).map (fun p => p.2)

/-- The GPS element produced by `parse_gps_element` (`src/main.py:178-207`).
Longitude/latitude are the signed 32-bit raw values divided by 10^7; the
Python float division is modelled exactly in `ℚ`. -/
structure Gps where
  longitude : ℚ
  latitude : ℚ
  altitude : Int
  angle : Nat
  satellites : Nat
  speed : Nat
deriving DecidableEq

/-- `parse_gps_element(data)` (`src/main.py:178-207`): fixed 15-byte
big-endian layout, no range validation. -/
def parse_gps_element (data : List Nat) : Option Gps :=
  match readBytes 4 data, readBytes 4 (data.drop 4), readBytes 2 (data.drop 8),
      readBytes 2 (data.drop 10), data.get? 12, readBytes 2 (data.drop 13) with
  | some lon, some lat, some alt, some ang, some sat, some spd =>
    some { longitude := (signedVal 32 (beVal lon) : ℚ) / 10000000
           latitude := (signedVal 32 (beVal lat) : ℚ) / 10000000
           altitude := signedVal 16 (beVal alt)
           angle := beVal ang
           satellites := sat
           speed := beVal spd }
  | _, _, _, _, _, _ => none

/-- One bucket loop of the Codec8 branch of `parse_io_element`
(`src/main.py:224-262`): `n` entries of (1-byte id, `width`-byte big-endian
value), starting at `offset` in `data`. The four copies of this loop in the
source differ only in `width`. Returns the updated map and the offset after
the bucket. -/
def ioBucketLoop (data : List Nat) (width : Nat) :
    Nat → Nat → List (Nat × Nat) → Option (List (Nat × Nat) × Nat)
  | 0, offset, m => some (m, offset)
  | n + 1, offset, m => do
    let io_id ← data.get? offset
    let vb ← readBytes width (data.drop (offset + 1))
    ioBucketLoop data width n (offset + 1 + width) (dictSet m io_id (beVal vb))

/-- The properties loop of the Codec8-Extended branch of `parse_io_element`
(`src/main.py:273-294`): `n` entries of (1-byte id, 1-byte declared value
length, value bytes).  Unsupported declared lengths advance the offset by
the declared length and add no map entry (`src/main.py:290-293`). -/
def extIoLoop (data : List Nat) :
    Nat → Nat → List (Nat × Nat) → Option (List (Nat × Nat) × Nat)
  | 0, offset, m => some (m, offset)
  | n + 1, offset, m =>
    match data.get? offset, data.get? (offset + 1) with
    | some io_id, some io_value_length =>
      if io_value_length = 1 then
        match data.get? (offset + 2) with
        | none => none
        | some v => extIoLoop data n (offset + 3) (dictSet m io_id v)
      else if io_value_length = 2 then
        match readBytes 2 (data.drop (offset + 2)) with
        | none => none
        | some vb => extIoLoop data n (offset + 4) (dictSet m io_id (beVal vb))
      else if io_value_length = 4 then
        match readBytes 4 (data.drop (offset + 2)) with
        | none => none
        | some vb => extIoLoop data n (offset + 6) (dictSet m io_id (beVal vb))
      else if io_value_length = 8 then
        match readBytes 8 (data.drop (offset + 2)) with
        | none => none
        | some vb => extIoLoop data n (offset + 10) (dictSet m io_id (beVal vb))
      else
        extIoLoop data n (offset + 2 + io_value_length) m
    | _, _ => none

/-- `parse_io_element(data, codec_id)` (`src/main.py:209-301`).  Returns the
IO map and the number of bytes consumed (`total_size = offset`).  `none`
models a Python exception (IndexError / struct.error). -/
def parse_io_element (data : List Nat) (codec_id : Nat) :
    Option (List (Nat × Nat) × Nat) :=
  if codec_id = 0x08 then do
    let _event_id ← data.get? 0
    let _element_count ← data.get? 1
    let n1 ← data.get? 2
    let (m1, off1) ← ioBucketLoop data 1 n1 3 []
    let n2 ← data.get? off1
    let (m2, off2) ← ioBucketLoop data 2 n2 (off1 + 1) m1
    let n4 ← data.get? off2
    let (m4, off4) ← ioBucketLoop data 4 n4 (off2 + 1) m2
    let n8 ← data.get? off4
    let (m8, off8) ← ioBucketLoop data 8 n8 (off4 + 1) m4
    pure (m8, off8)
  else if codec_id = 0x8E then do
    let _event_id ← data.get? 0
    let properties_count ← data.get? 1
    extIoLoop data properties_count 2 []
  else
    pure ([], 0)

/-- One decoded AVL record (the dict built at `src/main.py:169-174`), with
the timestamp kept as raw milliseconds since epoch. -/
structure PyRecord where
  timestamp_ms : Nat
  priority : Nat
  gps : Gps
  io : List (Nat × Nat)
deriving DecidableEq

/-- `parse_record(data, codec_id)` (`src/main.py:144-176`).  The outer
`Option` is a Python exception; the inner `Option PyRecord` mirrors the
value the source literally returns in `return record, offset` (the `record`
expression is a freshly built dict, hence always `some`). -/
def parse_record (data : List Nat) (codec_id : Nat) :
    Option (Option PyRecord × Nat) :=
  match readBytes 8 data with
  | none => none
  | some tsB =>
    match data.get? 8 with
    | none => none
    | some priority =>
      match parse_gps_element ((data.drop 9).take 15) with
      | none => none
      | some gps =>
        match parse_io_element (data.drop 24) codec_id with
        | none => none
        | some (io, io_size) =>
          some (some { timestamp_ms := beVal tsB, priority := priority,
                       gps := gps, io := io },
                24 + io_size)

/-- Outcome of `process_avl_data` (`src/main.py:106-142`): a Python
exception, the explicit `return None, codec_id` failure, or a record list
with the codec id. -/
inductive AvlResult where
  | raised : AvlResult
  | failed (codec_id : Nat) : AvlResult
  | ok (records : List PyRecord) (codec_id : Nat) : AvlResult
deriving DecidableEq

/-- The `for _ in range(record_count)` loop of `process_avl_data`
(`src/main.py:130-137`): parses `k` records starting at `offset`, appending
to `records`. -/
def recordLoop (data : List Nat) (codec_id : Nat) :
    Nat → Nat → List PyRecord → AvlResult
  | 0, _offset, records => .ok records codec_id
  | k + 1, offset, records =>
    match parse_record (data.drop offset) codec_id with
    | none => .raised
    | some (none, _) => .failed codec_id
    | some (some r, size) => recordLoop data codec_id k (offset + size) (records ++ [r])

/-- `process_avl_data(data)` (`src/main.py:106-142`): codec tag at byte 0,
then a 1-byte count (Codec8, `0x08`) or a 2-byte big-endian count
(Codec8 Extended, `0x8E`); any other tag returns `(None, codec_id)`. -/
def process_avl_data (data : List Nat) : AvlResult :=
  match data.get? 0 with
  | none => .raised
  | some codec_id =>
    if codec_id = 0x08 then
      match data.get? 1 with
      | none => .raised
      | some record_count => recordLoop data codec_id record_count 2 []
    else if codec_id = 0x8E then
      match readBytes 2 (data.drop 1) with
      | none => .raised
      | some cb => recordLoop data codec_id (beVal cb) 3 []
    else .failed codec_id

/-- The record-count field declared in a frame payload, read exactly as the
header parse of `process_avl_data` reads it (1 byte after an `0x08` tag,
2 bytes big-endian after an `0x8E` tag). -/
def declaredCount (data : List Nat) : Option Nat :=
  match data.get? 0 with
  | none => none
  | some tag =>
    if tag = 0x08 then data.get? 1
    else if tag = 0x8E then (readBytes 2 (data.drop 1)).map beVal
    else none

/-- `struct.pack('!I', n)`: 4-byte big-endian encoding. -/
def pack_I (n : Nat) : List Nat :=
  [n / 16777216 % 256, n / 65536 % 256, n / 256 % 256, n % 256]

/-- One result of one `sock.recv` call inside `receive_all`
(`src/main.py:96-103`): either the `socket.timeout` exception, or the chunk
of bytes `recv` returned (`[]` is the empty read signalling EOF). -/
inductive RecvEvent where
  | timeout : RecvEvent
  | chunk (bytes : List Nat) : RecvEvent
deriving DecidableEq

/-- The accumulation loop of `receive_all(sock, length)`
(`src/main.py:91-104`), with `data` the bytes gathered so far.  Each
`recv(length - len(data))` consumes the next event; a chunk larger than the
request is split, the surplus staying buffered as the next event (as in a
real socket).  An exhausted event list stands for a peer that never sends
again, which surfaces as the 60 s socket timeout, hence `none`.  Returns
the `receive_all` result together with the remaining event stream. -/
def receive_all_aux (length : Nat) (events : List RecvEvent) (data : List Nat) :
    Option (List Nat) × List RecvEvent :=
  if data.length < length then
    match events with
    | [] => (none, [])
    | .timeout :: rest => (none, rest)
    | .chunk [] :: rest => (none, rest)
    | .chunk (b :: bs) :: rest =>
      let got := (b :: bs).take (length - data.length)
      let leftover := (b :: bs).drop (length - data.length)
      if leftover = [] then receive_all_aux length rest (data ++ got)
      else (some (data ++ got), .chunk leftover :: rest)
  else (some data, events)

/-- `receive_all(sock, length)` (`src/main.py:91-104`). -/
def receive_all (events : List RecvEvent) (length : Nat) : Option (List Nat) :=
  (receive_all_aux length events []).1

/-- The bytes available on the stream, in arrival order, up to the first
gap (timeout) or EOF. -/
def availableBytes : List RecvEvent → List Nat
  | [] => []
  | .timeout :: _ => []
  | .chunk [] :: _ => []
  | .chunk (b :: bs) :: rest => (b :: bs) ++ availableBytes rest

/-- `d` is an initial segment of `l`. -/
def isLeadingSegment (d l : List Nat) : Prop := ∃ t, l = d ++ t

/-- Size of one receive event, for the session-loop termination measure. -/
def eventSize : RecvEvent → Nat
  | .timeout => 1
  | .chunk c => 1 + c.length

/-- Termination measure of the session loop: total size of the pending
event stream. -/
def eventsMeasure (events : List RecvEvent) : Nat := (events.map eventSize).sum

/-- `receive_all_aux` never grows the pending stream.  (Stated as a `def`
of a proposition because `session_loop` below needs it for its termination
argument.) -/
def receive_all_aux_measure_le (length : Nat) :
    ∀ (events : List RecvEvent) (data : List Nat),
      eventsMeasure (receive_all_aux length events data).2 ≤ eventsMeasure events := by
  intro events
  induction events with
  | nil =>
    intro data
    rw [receive_all_aux]
    split <;> simp [eventsMeasure]
  | cons ev tail ih =>
    intro data
    cases ev with
    | timeout =>
      rw [receive_all_aux]
      split <;> simp [eventsMeasure]
    | chunk c =>
      cases c with
      | nil =>
        rw [receive_all_aux]
        split <;> simp [eventsMeasure]
      | cons b bs =>
        rw [receive_all_aux]
        split
        · simp only []
          split
          · exact le_trans (ih _) (by simp [eventsMeasure, eventSize])
          · simp only [eventsMeasure, List.map_cons, List.sum_cons, eventSize,
              List.length_drop, List.length_cons]
            omega
        · simp

/-- A successful read that still needed bytes strictly shrinks the pending
stream.  (A `def` of a proposition, used by `session_loop`'s termination
argument.) -/
def receive_all_aux_measure_lt (length : Nat) :
    ∀ (events : List RecvEvent) (data d : List Nat) (rest : List RecvEvent),
      receive_all_aux length events data = (some d, rest) →
      data.length < length →
      eventsMeasure rest < eventsMeasure events := by
  intro events data d rest h hlen
  cases events with
  | nil =>
    rw [receive_all_aux, if_pos hlen] at h
    simp at h
  | cons ev tail =>
    cases ev with
    | timeout =>
      rw [receive_all_aux, if_pos hlen] at h
      simp at h
    | chunk c =>
      cases c with
      | nil =>
        rw [receive_all_aux, if_pos hlen] at h
        simp at h
      | cons b bs =>
        rw [receive_all_aux, if_pos hlen] at h
        simp only [] at h
        split at h
        · have h1 := receive_all_aux_measure_le length tail
            (data ++ (b :: bs).take (length - data.length))
          rw [h] at h1
          simp only [eventsMeasure, List.map_cons, List.sum_cons, eventSize] at h1 ⊢
          omega
        · simp only [Prod.mk.injEq] at h
          obtain ⟨h1, h2⟩ := h
          subst h2
          simp only [eventsMeasure, List.map_cons, List.sum_cons, eventSize,
            List.length_drop, List.length_cons]
          omega

/-- How the `while True` frame loop of `handle_client` ends
(`src/main.py:47-81`). -/
inductive LoopEnd where
  | noDataLength : LoopEnd
  | incompleteAvl : LoopEnd
  | processFailed (codec_id : Nat) : LoopEnd
  | raised : LoopEnd
deriving DecidableEq

/-- The `while True` frame loop of `handle_client` (`src/main.py:47-81`):
read a 4-byte big-endian length, treat `0` as a keepalive (`continue`),
read the payload, decode it, and acknowledge with the record count.
Returns the list of byte strings sent to the device (in order) and how the
loop ended. -/
def session_loop (events : List RecvEvent) : List (List Nat) × LoopEnd :=
  match h4 : receive_all_aux 4 events [] with
  | (none, _) => ([], .noDataLength)
  | (some data_length_bytes, rest) =>
    if hz : beVal data_length_bytes = 0 then
      session_loop rest
    else
      match hp : receive_all_aux (beVal data_length_bytes) rest [] with
      | (none, _) => ([], .incompleteAvl)
      | (some data, rest2) =>
        match process_avl_data data with
        | .raised => ([], .raised)
        | .failed codec_id => ([], .processFailed codec_id)
        | .ok records _ =>
          let (sent, e) := session_loop rest2
          (pack_I records.length :: sent, e)
termination_by eventsMeasure events
decreasing_by
  · exact receive_all_aux_measure_lt 4 events [] data_length_bytes rest h4 (by simp)
  · exact lt_trans
      (receive_all_aux_measure_lt (beVal data_length_bytes) rest [] data rest2 hp
        (by simp; omega))
      (receive_all_aux_measure_lt 4 events [] data_length_bytes rest h4 (by simp))

/-- Outcome of the handshake part of `handle_client` (`src/main.py:26-44`). -/
inductive HandshakeResult where
  | incompletePreamble : HandshakeResult
  | incompleteImei : HandshakeResult
  | ok (imei_data : List Nat) (rest : List RecvEvent) : HandshakeResult
deriving DecidableEq

/-- Steps 1-2 of `handle_client` (`src/main.py:26-44`): read the 2-byte
preamble, read `preamble[1]` identity bytes, and check them exactly as the
source does (`if not imei_data or len(imei_data) < imei_length`; note that
`receive_all(sock, 0)` returns the falsy `b''`).  The identity is kept as
its raw bytes: `decode('utf-8', errors='ignore')` is total, so the decode
step cannot fail on any byte string. -/
def handle_handshake (events : List RecvEvent) : HandshakeResult :=
  match receive_all_aux 2 events [] with
  | (none, _) => .incompletePreamble
  | (some preamble, rest) =>
    match preamble with
    | _ :: imei_length :: _ =>
      match receive_all_aux imei_length rest [] with
      | (none, _) => .incompleteImei
      | (some imei_data, rest2) =>
        if imei_data = [] ∨ imei_data.length < imei_length then .incompleteImei
        else .ok imei_data rest2
    | _ => .incompletePreamble

/-- Final outcome of `handle_client` (`src/main.py:17-89`). -/
inductive SessionOutcome where
  | incompletePreamble : SessionOutcome
  | incompleteImei : SessionOutcome
  | loopEnd (e : LoopEnd) : SessionOutcome
deriving DecidableEq

/-- `handle_client` (`src/main.py:17-89`): handshake, the single `0x01`
acknowledgment byte (`src/main.py:44`), then the frame loop.  Returns the
byte strings sent to the device, in order, and the session outcome. -/
def handle_client (events : List RecvEvent) : List (List Nat) × SessionOutcome :=
  match handle_handshake events with
  | .incompletePreamble => ([], .incompletePreamble)
  | .incompleteImei => ([], .incompleteImei)
  | .ok _imei rest =>
    let (sent, e) := session_loop rest
    ([0x01] :: sent, .loopEnd e)

/-- The byte string of one minimal Codec8-Extended record: zero timestamp,
zero priority, all-zero GPS element, event id 0 and zero IO properties
(8 + 1 + 15 + 2 = 26 bytes). -/
def zeroRecordBytes : List Nat :=
  [0, 0, 0, 0, 0, 0, 0, 0,
   0,
   0, 0, 0, 0, 0, 0, 0, 0, 0, 0, 0, 0, 0, 0, 0,
   0, 0]

/-- The GPS element `parse_gps_element` decodes from 15 zero bytes. -/
def zeroGps : Gps :=
  { longitude := 0, latitude := 0, altitude := 0, angle := 0,
    satellites := 0, speed := 0 }

/-- The record `parse_record` decodes from `zeroRecordBytes`. -/
def zeroRecord : PyRecord :=
  { timestamp_ms := 0, priority := 0, gps := zeroGps, io := [] }

theorem session_loop_nil : session_loop [] = ([], .noDataLength) := by
  rw [session_loop]
  rfl

/-- Reading exactly one whole pending chunk consumes it and returns it. -/
theorem aux_chunk_exact (c : List Nat) (n : Nat) (rest : List RecvEvent)
    (hne : c ≠ []) (hlen : c.length = n) :
    receive_all_aux n (.chunk c :: rest) [] = (some c, rest) := by
  subst hlen
  cases c with
  | nil => exact absurd rfl hne
  | cons b bs =>
    rw [receive_all_aux, if_pos (by simp)]
    simp only [List.length_nil, Nat.sub_zero, List.take_length, List.drop_length,
      List.nil_append]
    rw [if_pos trivial, receive_all_aux.eq_def, if_neg (lt_irrefl _)]

/-- C1 (amended: identity lengths 1..255; the source rejects `L = 0`
because `receive_all(sock, 0)` returns the falsy `b''`): for every identity
length `L` in 1..255, a 2-byte preamble whose second byte is `L` followed by
exactly `L` identity bytes (arbitrary byte values, since the permissive
`errors='ignore'` decode never rejects them) yields a successful handshake,
and exactly one acknowledgment byte `0x01` is sent to the device before any
frame is read. -/
theorem spec_c1_handshake (x L : Nat) (id : List Nat)
    (hL1 : 1 ≤ L) (hL2 : L ≤ 255) (hlen : id.length = L) :
    handle_handshake [.chunk (x :: L :: id)] = .ok id [] ∧
    handle_client [.chunk (x :: L :: id)] = ([[0x01]], .loopEnd .noDataLength) := by
  obtain ⟨i, is, rfl⟩ : ∃ i is, id = i :: is := by
    cases id with
    | nil => simp at hlen; omega
    | cons i is => exact ⟨i, is, rfl⟩
  have step1 : receive_all_aux 2 [.chunk (x :: L :: i :: is)] [] =
      (some [x, L], [.chunk (i :: is)]) := rfl
  have step2 : receive_all_aux L [.chunk (i :: is)] [] = (some (i :: is), []) :=
    aux_chunk_exact (i :: is) L [] (by simp) hlen
  have hh : handle_handshake [.chunk (x :: L :: i :: is)] = .ok (i :: is) [] := by
    simp only [handle_handshake, step1, step2]
    rw [if_neg]
    simp [hlen]
  refine ⟨hh, ?_⟩
  simp only [handle_client, hh, session_loop_nil]

/-- C1 counterexample: with declared identity length `L = 0` (and exactly
`L = 0` identity bytes following), the handshake fails (`receive_all`
returns the falsy `b''`, tripping `if not imei_data`) and no acknowledgment
byte is sent, so the claim's "for every identity length L in 0..255" is
false at `L = 0`. -/
theorem spec_c1_counterexample :
    handle_handshake [.chunk [0x35, 0]] = .incompleteImei ∧
    handle_client [.chunk [0x35, 0]] = ([], .incompleteImei) := by
  constructor <;> rfl

/-- 15 zero bytes decode to the all-zero GPS element. -/
theorem parse_gps_zero :
    parse_gps_element [0, 0, 0, 0, 0, 0, 0, 0, 0, 0, 0, 0, 0, 0, 0] = some zeroGps := by
  simp [parse_gps_element, readBytes, beVal, signedVal, zeroGps]

/-- `zeroRecordBytes` followed by anything parses to `zeroRecord`,
consuming exactly 26 bytes. -/
theorem parse_record_zero (rest : List Nat) :
    parse_record (zeroRecordBytes ++ rest) 0x8E = some (some zeroRecord, 26) := by
  have h1 : readBytes 8 (zeroRecordBytes ++ rest) = some [0, 0, 0, 0, 0, 0, 0, 0] := rfl
  have h2 : (zeroRecordBytes ++ rest).get? 8 = some 0 := rfl
  have h3 : ((zeroRecordBytes ++ rest).drop 9).take 15 =
      [0, 0, 0, 0, 0, 0, 0, 0, 0, 0, 0, 0, 0, 0, 0] := rfl
  have h4 : parse_io_element ((zeroRecordBytes ++ rest).drop 24) 0x8E = some ([], 2) := rfl
  unfold parse_record
  rw [h1, h2, h3, parse_gps_zero, h4]
  rfl

/-- Whenever `parse_record` returns (does not raise), the record component
of its result is `some`, never `none`. -/
theorem parse_record_isSome (data : List Nat) (cid : Nat) (r : Option PyRecord)
    (size : Nat) (h : parse_record data cid = some (r, size)) : ∃ rec, r = some rec := by
  unfold parse_record at h
  split at h
  · exact absurd h (by simp)
  · split at h
    · exact absurd h (by simp)
    · split at h
      · exact absurd h (by simp)
      · split at h
        · exact absurd h (by simp)
        · simp only [Option.some.injEq, Prod.mk.injEq] at h
          exact ⟨_, h.1.symm⟩

/-- The record loop never hits its `record is None` branch, so it never
produces the `.failed` outcome. -/
theorem recordLoop_not_failed (data : List Nat) (cid : Nat) :
    ∀ (k offset : Nat) (acc : List PyRecord) (cid2 : Nat),
      recordLoop data cid k offset acc ≠ .failed cid2 := by
  intro k
  induction k with
  | zero =>
    intro offset acc cid2 h
    rw [recordLoop] at h
    simp at h
  | succ k ih =>
    intro offset acc cid2 h
    rw [recordLoop] at h
    split at h
    · simp at h
    · rename_i heq
      obtain ⟨rec, hrec⟩ := parse_record_isSome _ _ _ _ heq
      simp at hrec
    · exact ih _ _ _ h

/-- A successful record loop produces exactly as many records as it was
asked to decode, appended to the accumulator. -/
theorem recordLoop_ok_length (data : List Nat) (cid : Nat) :
    ∀ (k offset : Nat) (acc records : List PyRecord) (cid2 : Nat),
      recordLoop data cid k offset acc = .ok records cid2 →
      records.length = acc.length + k := by
  intro k
  induction k with
  | zero =>
    intro offset acc records cid2 h
    rw [recordLoop] at h
    simp only [AvlResult.ok.injEq] at h
    rw [← h.1]
    rfl
  | succ k ih =>
    intro offset acc records cid2 h
    rw [recordLoop] at h
    split at h
    · simp at h
    · simp at h
    · have := ih _ _ _ _ h
      simp only [List.length_append, List.length_cons, List.length_nil] at this
      omega

/-- C9: for every input on which `parse_record` returns rather than raising,
the returned record is not `None`; hence the `record is None` branch of
`process_avl_data` is unreachable, and `.failed` (the `RecordDecodeFailure`
return path `return None, codec_id`) can only arise from an unsupported
codec tag, never from the record loop — truncated or malformed records
surface as the exception outcome instead. -/
theorem spec_c9_record_never_none :
    (∀ (data : List Nat) (cid : Nat) (r : Option PyRecord) (size : Nat),
        parse_record data cid = some (r, size) → ∃ rec, r = some rec) ∧
    ∀ (data : List Nat) (cid : Nat),
        process_avl_data data = .failed cid → cid ≠ 0x08 ∧ cid ≠ 0x8E := by
  refine ⟨parse_record_isSome, ?_⟩
  intro data cid h
  unfold process_avl_data at h
  split at h
  · simp at h
  · split at h
    · split at h
      · simp at h
      · exact absurd h (recordLoop_not_failed _ _ _ _ _ _)
    · split at h
      · split at h
        · simp at h
        · exact absurd h (recordLoop_not_failed _ _ _ _ _ _)
      · rename_i h8 h8e
        simp only [AvlResult.failed.injEq] at h
        subst h
        exact ⟨h8, h8e⟩

theorem spec_c9_witness :
    (parse_record zeroRecordBytes 0x8E = some (some zeroRecord, 26) ∧
     ∃ rec, (some zeroRecord : Option PyRecord) = some rec) ∧
    process_avl_data [0x09] = .failed 0x09 ∧ (0x09 : Nat) ≠ 0x08 ∧ (0x09 : Nat) ≠ 0x8E := by
  have hpz : parse_record zeroRecordBytes 0x8E = some (some zeroRecord, 26) := by
    have := parse_record_zero []
    simpa using this
  exact ⟨⟨hpz, spec_c9_record_never_none.1 zeroRecordBytes 0x8E (some zeroRecord) 26 hpz⟩,
    by decide, spec_c9_record_never_none.2 [0x09] 0x09 (by decide)⟩

/-- The codec id carried by a successful record loop is the one it was
called with. -/
theorem recordLoop_ok_codec (data : List Nat) (cid : Nat) :
    ∀ (k offset : Nat) (acc records : List PyRecord) (cid2 : Nat),
      recordLoop data cid k offset acc = .ok records cid2 → cid2 = cid := by
  intro k
  induction k with
  | zero =>
    intro offset acc records cid2 h
    rw [recordLoop] at h
    simp only [AvlResult.ok.injEq] at h
    exact h.2.symm
  | succ k ih =>
    intro offset acc records cid2 h
    rw [recordLoop] at h
    split at h
    · simp at h
    · simp at h
    · exact ih _ _ _ _ h

/-- The record loop decodes `k` zero-records from `k` concatenated copies
of `zeroRecordBytes`. -/
theorem recordLoop_zero :
    ∀ (k : Nat) (data : List Nat) (offset : Nat) (acc : List PyRecord),
      data.drop offset = (List.replicate k zeroRecordBytes).flatten →
      recordLoop data 0x8E k offset acc = .ok (acc ++ List.replicate k zeroRecord) 0x8E := by
  intro k
  induction k with
  | zero =>
    intro data offset acc h
    rw [recordLoop]
    simp
  | succ k ih =>
    intro data offset acc h
    rw [recordLoop]
    have hparse : parse_record (data.drop offset) 0x8E = some (some zeroRecord, 26) := by
      rw [h, List.replicate_succ, List.flatten_cons]
      exact parse_record_zero _
    rw [hparse]
    have hdrop : data.drop (offset + 26) = (List.replicate k zeroRecordBytes).flatten := by
      rw [← List.drop_drop, h, List.replicate_succ, List.flatten_cons]
      exact List.drop_left' rfl
    show recordLoop data 0x8E k (offset + 26) (acc ++ [zeroRecord]) = _
    rw [ih data (offset + 26) (acc ++ [zeroRecord]) hdrop]
    simp [List.replicate_succ]

/-- C5: for codec tag `0x8E` the record count is the 2-byte big-endian
integer after the tag: a payload declaring `k = 300` records (count bytes
`0x01 0x2C`) decodes all 300 records, while for codec `0x08` the count is a
single byte, so a frame of well-formed bytes can never declare (or decode
to) 300 records. -/
theorem spec_c5_extended_count :
    process_avl_data
        (0x8E :: 0x01 :: 0x2C :: (List.replicate 300 zeroRecordBytes).flatten) =
      .ok (List.replicate 300 zeroRecord) 0x8E ∧
    beVal [0x01, 0x2C] = 300 ∧
    (List.replicate 300 zeroRecord).length = 300 ∧
    ∀ (data : List Nat) (records : List PyRecord),
      isBytes data → process_avl_data data = .ok records 0x08 →
      records.length < 300 := by
  refine ⟨?_, by decide, by rw [List.length_replicate], ?_⟩
  · have hz := recordLoop_zero 300
      (0x8E :: 0x01 :: 0x2C :: (List.replicate 300 zeroRecordBytes).flatten) 3 [] rfl
    simp only [List.nil_append] at hz
    rw [process_avl_data.eq_def]
    rw [show (0x8E :: 0x01 :: 0x2C :: (List.replicate 300 zeroRecordBytes).flatten).get? 0 =
        some 0x8E from rfl]
    dsimp only
    rw [if_neg (by decide), if_pos rfl]
    have hrb : readBytes 2
        ((0x8E :: 0x01 :: 0x2C :: (List.replicate 300 zeroRecordBytes).flatten).drop 1) =
        some [0x01, 0x2C] := by
      unfold readBytes
      have h2 : 2 ≤ ((0x8E :: 0x01 :: 0x2C ::
          (List.replicate 300 zeroRecordBytes).flatten).drop 1).length := by
        rw [show ((0x8E :: 0x01 :: 0x2C ::
            (List.replicate 300 zeroRecordBytes).flatten).drop 1) =
          0x01 :: 0x2C :: (List.replicate 300 zeroRecordBytes).flatten from rfl]
        rw [List.length_cons, List.length_cons]
        omega
      rw [if_pos h2]
      rfl
    rw [hrb]
    dsimp only
    rw [show beVal [0x01, 0x2C] = 300 from rfl]
    exact hz
  · intro data records hbytes h
    unfold process_avl_data at h
    split at h
    · simp at h
    · rename_i c hc
      split at h
      · rename_i h8
        split at h
        · simp at h
        · rename_i count hcount
          have hlen := recordLoop_ok_length data c _ _ _ _ _ h
          have hcb : count < 256 := hbytes count (List.get?_mem hcount)
          simp only [List.length_nil] at hlen
          omega
      · split at h
        · rename_i h8 h142
          split at h
          · simp at h
          · have := recordLoop_ok_codec data c _ _ _ _ _ h
            omega
        · simp at h

theorem spec_c5_witness :
    isBytes [8, 0] ∧ process_avl_data [8, 0] = .ok [] 8 ∧
    ([] : List PyRecord).length < 300 :=
  ⟨by unfold isBytes; decide, by decide,
   spec_c5_extended_count.2.2.2 [8, 0] [] (by unfold isBytes; decide) (by decide)⟩

/-- C10: whenever `process_avl_data` returns a record list, its length
equals the record-count field declared in the frame payload, and therefore
the 4-byte big-endian acknowledgment the session loop sends for a
successfully decoded frame encodes exactly the declared record count. -/
theorem spec_c10_ack_equals_declared_count :
    (∀ (data : List Nat) (records : List PyRecord) (cid : Nat),
        process_avl_data data = .ok records cid →
        declaredCount data = some records.length) ∧
    ∀ (events rest rest2 : List RecvEvent) (lb payload : List Nat)
      (records : List PyRecord) (cid : Nat),
      receive_all_aux 4 events [] = (some lb, rest) →
      beVal lb ≠ 0 →
      receive_all_aux (beVal lb) rest [] = (some payload, rest2) →
      process_avl_data payload = .ok records cid →
      (session_loop events).1 = pack_I records.length :: (session_loop rest2).1 := by
  constructor
  · intro data records cid h
    unfold process_avl_data at h
    split at h
    · simp at h
    · rename_i c hc
      split at h
      · rename_i h8
        split at h
        · simp at h
        · rename_i count hcount
          have hlen := recordLoop_ok_length data c _ _ _ _ _ h
          simp only [List.length_nil] at hlen
          subst h8
          simp only [declaredCount, hc]
          rw [if_pos trivial, hcount, hlen]
          norm_num
      · split at h
        · rename_i h8 h142
          split at h
          · simp at h
          · rename_i cb hcb
            have hlen := recordLoop_ok_length data c _ _ _ _ _ h
            simp only [List.length_nil] at hlen
            subst h142
            simp only [declaredCount, hc]
            rw [if_pos trivial, hcb, hlen]
            simp
        · simp at h
  · intro events rest rest2 lb payload records cid h4 hz hp hok
    conv_lhs => rw [session_loop.eq_def]
    split
    · rename_i heq
      rw [h4] at heq
      simp at heq
    · rename_i lb2 rest' heq
      rw [h4] at heq
      obtain ⟨rfl, rfl⟩ : lb = lb2 ∧ rest = rest' := by
        simpa [Prod.mk.injEq, eq_comm] using heq
      rw [dif_neg hz]
      split
      · rename_i heq2
        rw [hp] at heq2
        simp at heq2
      · rename_i payload2 rest2' heq2
        rw [hp] at heq2
        obtain ⟨rfl, rfl⟩ : payload = payload2 ∧ rest2 = rest2' := by
          simpa [Prod.mk.injEq, eq_comm] using heq2
        rw [hok]

theorem spec_c10_witness :
    process_avl_data [8, 0] = .ok [] 8 ∧
    declaredCount [8, 0] = some ([] : List PyRecord).length ∧
    (session_loop [.chunk [0, 0, 0, 2, 8, 0]]).1 =
      pack_I ([] : List PyRecord).length :: (session_loop []).1 :=
  ⟨by decide,
   spec_c10_ack_equals_declared_count.1 [8, 0] [] 8 (by decide),
   spec_c10_ack_equals_declared_count.2 [.chunk [0, 0, 0, 2, 8, 0]] [.chunk [8, 0]] []
     [0, 0, 0, 2] [8, 0] [] 8 (by decide) (by decide) (by decide) (by decide)⟩

/-- In the replace branch of `dictSet`, the replaced entry is found. -/
theorem find_map_replace (k v : Nat) :
    ∀ m : List (Nat × Nat), m.any (fun p => p.1 == k) = true →
      (m.map (fun p => if p.1 == k then (k, v) else p)).find? (fun p => p.1 == k) =
        some (k, v) := by
  intro m
  induction m with
  | nil => intro h; simp at h
  | cons p m ih =>
    intro h
    simp only [List.map_cons]
    cases hpk : (p.1 == k) with
    | true => simp
    | false =>
      simp only [Bool.false_eq_true, if_false]
      rw [List.find?_cons, hpk]
      exact ih (by simp only [List.any_cons, hpk, Bool.false_or] at h; exact h)

/-- In the append branch of `dictSet`, the new entry is found. -/
theorem find_append_self (k v : Nat) :
    ∀ m : List (Nat × Nat), m.any (fun p => p.1 == k) = false →
      (m ++ [(k, v)]).find? (fun p => p.1 == k) = some (k, v) := by
  intro m
  induction m with
  | nil =>
    intro _
    simp
  | cons p m ih =>
    intro h
    simp only [List.any_cons, Bool.or_eq_false_iff] at h
    rw [List.cons_append, List.find?_cons_of_neg _ (by simp [h.1])]
    exact ih h.2

/-- Python dict semantics of `dictSet`: after `m[k] = v`, looking up `k`
yields `v` (last write wins). -/
theorem dictGet_dictSet (m : List (Nat × Nat)) (k v : Nat) :
    dictGet (dictSet m k v) k = some v := by
  unfold dictGet dictSet
  by_cases hany : m.any (fun p => p.1 == k) = true
  · rw [if_pos hany, find_map_replace k v m hany]
    rfl
  · rw [if_neg hany, find_append_self k v m (Bool.eq_false_iff.mpr hany)]
    rfl

/-- Reading one byte at an index past a prefix and a middle segment of the
data lands in the trailing segment. -/
theorem get?_prefix_skip (pre mid post : List Nat) (j : Nat) :
    (pre ++ (mid ++ post)).get? (pre.length + mid.length + j) = post.get? j := by
  rw [← List.append_assoc]
  rw [List.get?_append_right
    (show (pre ++ mid).length ≤ pre.length + mid.length + j by
      simp [List.length_append])]
  congr 1
  simp only [List.length_append]
  omega

/-- One step of the extended-IO properties loop on an entry whose declared
value length is unsupported: the cursor advances by exactly the declared
length (`src/main.py:290-293`) and the map is unchanged. -/
theorem extIoLoop_skip (data : List Nat) (n offset : Nat) (m : List (Nat × Nat))
    (io_id w : Nat)
    (hid : data.get? offset = some io_id)
    (hlen : data.get? (offset + 1) = some w)
    (hw1 : w ≠ 1) (hw2 : w ≠ 2) (hw4 : w ≠ 4) (hw8 : w ≠ 8) :
    extIoLoop data (n + 1) offset m = extIoLoop data n (offset + 2 + w) m := by
  rw [extIoLoop, hid, hlen]
  dsimp only
  rw [if_neg hw1, if_neg hw2, if_neg hw4, if_neg hw8]

/-- One step of the extended-IO properties loop on a 1-byte entry. -/
theorem extIoLoop_entry1 (data : List Nat) (n offset : Nat) (m : List (Nat × Nat))
    (io_id v : Nat)
    (hid : data.get? offset = some io_id)
    (hlen : data.get? (offset + 1) = some 1)
    (hv : data.get? (offset + 2) = some v) :
    extIoLoop data (n + 1) offset m =
      extIoLoop data n (offset + 3) (dictSet m io_id v) := by
  rw [extIoLoop, hid, hlen]
  dsimp only
  rw [if_pos rfl, hv]

/-- C6: in the explicitly-tagged (`0x8E`) IO sub-variant, for EVERY declared
value length `w` other than 1, 2, 4 or 8, an entry declaring length `w`
followed by `w` arbitrary value bytes is skipped with the cursor advanced by
exactly `w`, contributes no map entry for its id, and decoding continues
with the next entry: the result holds only the following entry and the
consumed size is 2 (header) + 2 + w (skipped entry) + 3 (next entry)
= 7 + w. -/
theorem spec_c6_ext_unsupported_length_skipped (e idA idB v w : Nat)
    (junk : List Nat)
    (hw1 : w ≠ 1) (hw2 : w ≠ 2) (hw4 : w ≠ 4) (hw8 : w ≠ 8)
    (hjunk : junk.length = w) (hne : idA ≠ idB) :
    parse_io_element (e :: 2 :: idA :: w :: (junk ++ [idB, 1, v])) 0x8E =
      some ([(idB, v)], 7 + w) ∧
    dictGet [(idB, v)] idA = none := by
  have hid2 : (e :: 2 :: idA :: w :: (junk ++ [idB, 1, v])).get? (2 + 2 + w) =
      some idB := by
    have h0 := get?_prefix_skip [e, 2, idA, w] junk [idB, 1, v] 0
    rw [show ([e, 2, idA, w] : List Nat).length + junk.length + 0 = 2 + 2 + w by
      simp only [List.length_cons, List.length_nil, hjunk] <;> omega] at h0
    exact h0
  have hlen2 : (e :: 2 :: idA :: w :: (junk ++ [idB, 1, v])).get? (2 + 2 + w + 1) =
      some 1 := by
    have h0 := get?_prefix_skip [e, 2, idA, w] junk [idB, 1, v] 1
    rw [show ([e, 2, idA, w] : List Nat).length + junk.length + 1 = 2 + 2 + w + 1 by
      simp only [List.length_cons, List.length_nil, hjunk] <;> omega] at h0
    exact h0
  have hv2 : (e :: 2 :: idA :: w :: (junk ++ [idB, 1, v])).get? (2 + 2 + w + 2) =
      some v := by
    have h0 := get?_prefix_skip [e, 2, idA, w] junk [idB, 1, v] 2
    rw [show ([e, 2, idA, w] : List Nat).length + junk.length + 2 = 2 + 2 + w + 2 by
      simp only [List.length_cons, List.length_nil, hjunk] <;> omega] at h0
    exact h0
  constructor
  · calc parse_io_element (e :: 2 :: idA :: w :: (junk ++ [idB, 1, v])) 0x8E
        = extIoLoop (e :: 2 :: idA :: w :: (junk ++ [idB, 1, v])) (1 + 1) 2 [] := rfl
      _ = extIoLoop (e :: 2 :: idA :: w :: (junk ++ [idB, 1, v])) 1 (2 + 2 + w) [] :=
          extIoLoop_skip _ 1 2 [] idA w rfl rfl hw1 hw2 hw4 hw8
      _ = extIoLoop (e :: 2 :: idA :: w :: (junk ++ [idB, 1, v])) (0 + 1)
            (2 + 2 + w) [] := rfl
      _ = extIoLoop (e :: 2 :: idA :: w :: (junk ++ [idB, 1, v])) 0 (2 + 2 + w + 3)
            (dictSet [] idB v) :=
          extIoLoop_entry1 _ 0 (2 + 2 + w) [] idB v hid2 hlen2 hv2
      _ = some (dictSet [] idB v, 2 + 2 + w + 3) := by rw [extIoLoop]
      _ = some ([(idB, v)], 7 + w) := by
          rw [show dictSet [] idB v = [(idB, v)] from rfl,
            show 2 + 2 + w + 3 = 7 + w by omega]
  · unfold dictGet
    rw [List.find?_cons, show ((idB, v).1 == idA) = false by simpa using (Ne.symm hne)]
    rfl

theorem spec_c6_witness :
    ((16 : Nat) ≠ 1 ∧ (16 : Nat) ≠ 2 ∧ (16 : Nat) ≠ 4 ∧ (16 : Nat) ≠ 8 ∧
     (List.replicate 16 (0 : Nat)).length = 16 ∧ (1 : Nat) ≠ 2) ∧
    parse_io_element (0 :: 2 :: 1 :: 16 :: (List.replicate 16 0 ++ [2, 1, 9])) 0x8E =
      some ([(2, 9)], 23) ∧
    dictGet [(2, 9)] 1 = none :=
  ⟨⟨by decide, by decide, by decide, by decide, by decide, by decide⟩,
   spec_c6_ext_unsupported_length_skipped 0 1 2 9 16 (List.replicate 16 0)
     (by decide) (by decide) (by decide) (by decide) (by decide) (by decide)⟩

/-- C7: in the width-bucketed (`0x08`) IO sub-variant the four buckets are
consumed in the fixed order 1-, 2-, 4-, 8-byte values, each prefixed by its
own count byte, and all entries land in one flat map where a later bucket
overwrites a duplicate id from an earlier one (last write wins): a 1-byte
entry `(5, v)` followed by a 2-byte entry `(5, [w1, w2])` leaves only the
2-byte value; `dictGet (dictSet m k val) k = some val` states last-write-wins
for the map in general; and the spec's example
`(n1=1,[id=1,val=7])(n2=0)(n4=0)(n8=0)` yields the map `{1: 7}`. -/
theorem spec_c7_bucket_order_last_write_wins (e c v w1 w2 : Nat) :
    parse_io_element [e, c, 1, 5, v, 1, 5, w1, w2, 0, 0] 0x08 =
      some ([(5, beVal [w1, w2])], 11) ∧
    beVal [w1, w2] = 256 * w1 + w2 ∧
    parse_io_element [e, c, 1, 1, 7, 0, 0, 0] 0x08 = some ([(1, 7)], 8) ∧
    ∀ (m : List (Nat × Nat)) (k val : Nat), dictGet (dictSet m k val) k = some val := by
  refine ⟨rfl, ?_, rfl, dictGet_dictSet⟩
  simp only [beVal, List.foldl_cons, List.foldl_nil]
  omega

/-- C8: the GPS element decoder reads the fixed 15-byte big-endian layout
with no range validation (any 15 bytes decode successfully), and decoding the
signed 32-bit value `525200000` (bytes `31 77 234 128`) as the longitude
reproduces `52.52` exactly in the `ℚ` model of the `/1e7` float scale; the
remaining fields decode as signed 32-bit latitude, signed 16-bit altitude,
unsigned 16-bit angle, 1-byte satellites and unsigned 16-bit speed. -/
theorem spec_c8_gps_layout_roundtrip :
    (∀ data : List Nat, data.length = 15 → (parse_gps_element data).isSome) ∧
    parse_gps_element [31, 77, 234, 128, 1, 2, 3, 4, 255, 20, 0, 90, 7, 1, 44] =
      some { longitude := 5252 / 100, latitude := (16909060 : ℚ) / 10000000,
             altitude := -236, angle := 90, satellites := 7, speed := 300 } := by
  constructor
  · intro data hlen
    have h1 : readBytes 4 data = some (data.take 4) := by
      unfold readBytes
      rw [if_pos (by omega)]
    have h2 : readBytes 4 (data.drop 4) = some ((data.drop 4).take 4) := by
      unfold readBytes
      rw [if_pos (by simp only [List.length_drop]; omega)]
    have h3 : readBytes 2 (data.drop 8) = some ((data.drop 8).take 2) := by
      unfold readBytes
      rw [if_pos (by simp only [List.length_drop]; omega)]
    have h4 : readBytes 2 (data.drop 10) = some ((data.drop 10).take 2) := by
      unfold readBytes
      rw [if_pos (by simp only [List.length_drop]; omega)]
    have h6 : readBytes 2 (data.drop 13) = some ((data.drop 13).take 2) := by
      unfold readBytes
      rw [if_pos (by simp only [List.length_drop]; omega)]
    cases h5 : data.get? 12 with
    | none =>
      rw [List.get?_eq_none] at h5
      omega
    | some sat =>
      unfold parse_gps_element
      rw [h1, h2, h3, h4, h5, h6]
      rfl
  · simp [parse_gps_element, readBytes, beVal, signedVal]
    norm_num

theorem spec_c8_witness :
    (List.replicate 15 (0 : Nat)).length = 15 ∧
    (parse_gps_element (List.replicate 15 0)).isSome :=
  ⟨by decide, spec_c8_gps_layout_roundtrip.1 (List.replicate 15 0) (by decide)⟩

/-- C2: for every frame payload whose first byte (codec tag) is neither
`0x08` nor `0x8E`, `process_avl_data` rejects the whole frame with
`(None, codec_id)` — no record list at all — and in the session loop this
ends the session for that frame with nothing sent (no acknowledgment). -/
theorem spec_c2_unsupported_codec (events rest rest2 : List RecvEvent)
    (lb payload : List Nat) (cid : Nat)
    (h4 : receive_all_aux 4 events [] = (some lb, rest))
    (hz : beVal lb ≠ 0)
    (hp : receive_all_aux (beVal lb) rest [] = (some payload, rest2))
    (h0 : payload.get? 0 = some cid)
    (h8 : cid ≠ 0x08) (h8e : cid ≠ 0x8E) :
    process_avl_data payload = .failed cid ∧
    session_loop events = ([], .processFailed cid) := by
  have hproc : process_avl_data payload = .failed cid := by
    simp only [process_avl_data, h0]
    rw [if_neg h8, if_neg h8e]
  refine ⟨hproc, ?_⟩
  conv_lhs => rw [session_loop.eq_def]
  split
  · rename_i heq
    rw [h4] at heq
    simp at heq
  · rename_i lb2 rest' heq
    rw [h4] at heq
    obtain ⟨rfl, rfl⟩ : lb = lb2 ∧ rest = rest' := by
      simpa [Prod.mk.injEq, eq_comm] using heq
    rw [dif_neg hz]
    split
    · rename_i heq2
      rw [hp] at heq2
      simp at heq2
    · rename_i payload2 rest2' heq2
      rw [hp] at heq2
      obtain ⟨rfl, rfl⟩ : payload = payload2 ∧ rest2 = rest2' := by
        simpa [Prod.mk.injEq, eq_comm] using heq2
      rw [hproc]

theorem spec_c2_witness :
    (receive_all_aux 4 [.chunk [0, 0, 0, 1, 1]] [] = (some [0, 0, 0, 1], [.chunk [1]]) ∧
     beVal [0, 0, 0, 1] ≠ 0 ∧
     receive_all_aux (beVal [0, 0, 0, 1]) [.chunk [1]] [] = (some [1], []) ∧
     ([1] : List Nat).get? 0 = some 1 ∧ (1 : Nat) ≠ 0x08 ∧ (1 : Nat) ≠ 0x8E) ∧
    process_avl_data [1] = .failed 1 ∧
    session_loop [.chunk [0, 0, 0, 1, 1]] = ([], .processFailed 1) :=
  ⟨⟨by decide, by decide, by decide, by decide, by decide, by decide⟩,
   spec_c2_unsupported_codec [.chunk [0, 0, 0, 1, 1]] [.chunk [1]] [] [0, 0, 0, 1] [1] 1
     (by decide) (by decide) (by decide) (by decide) (by decide) (by decide)⟩

/-- Soundness of the `receive_all` loop: a successful read returns exactly
the requested number of bytes, extending the accumulator with bytes taken
from the stream in arrival order. -/
theorem receive_all_aux_sound (n : Nat) :
    ∀ (events : List RecvEvent) (data d : List Nat) (rest : List RecvEvent),
      receive_all_aux n events data = (some d, rest) →
      data.length ≤ n →
      d.length = n ∧ ∃ t, d = data ++ t ∧ isLeadingSegment t (availableBytes events) := by
  intro events
  induction events with
  | nil =>
    intro data d rest h hle
    rw [receive_all_aux] at h
    split at h
    · simp at h
    · rename_i hge
      obtain ⟨rfl, rfl⟩ : data = d ∧ [] = rest := by
        simpa [Prod.mk.injEq] using h
      exact ⟨by omega, [], by simp, [], by simp [availableBytes]⟩
  | cons ev tail ih =>
    intro data d rest h hle
    cases ev with
    | timeout =>
      rw [receive_all_aux] at h
      split at h
      · simp at h
      · obtain ⟨rfl, rfl⟩ : data = d ∧ RecvEvent.timeout :: tail = rest := by
          simpa [Prod.mk.injEq] using h
        rename_i hge
        exact ⟨by omega, [], by simp, [], by simp [availableBytes]⟩
    | chunk c =>
      cases c with
      | nil =>
        rw [receive_all_aux] at h
        split at h
        · simp at h
        · obtain ⟨rfl, rfl⟩ : data = d ∧ RecvEvent.chunk [] :: tail = rest := by
            simpa [Prod.mk.injEq] using h
          rename_i hge
          exact ⟨by omega, [], by simp, [], by simp [availableBytes]⟩
      | cons b bs =>
        rw [receive_all_aux] at h
        split at h
        · rename_i hlt
          simp only [] at h
          split at h
          · rename_i hdrop
            have hgotlen : ((b :: bs).take (n - data.length)).length ≤ n - data.length := by
              simp [List.length_take]
            obtain ⟨hlen, t, rfl, u, hu⟩ :=
              ih (data ++ (b :: bs).take (n - data.length)) d rest h
                (by rw [List.length_append]; omega)
            have hwhole : (b :: bs).take (n - data.length) = b :: bs :=
              List.take_of_length_le (List.drop_eq_nil_iff.mp hdrop)
            refine ⟨hlen, (b :: bs).take (n - data.length) ++ t, by simp, ?_⟩
            rw [availableBytes, hwhole, hu]
            exact ⟨u, by simp⟩
          · rename_i hdrop
            obtain ⟨rfl, rfl⟩ :
                data ++ (b :: bs).take (n - data.length) = d ∧
                RecvEvent.chunk ((b :: bs).drop (n - data.length)) :: tail = rest := by
              simpa [Prod.mk.injEq] using h
            have hblen : n - data.length ≤ (b :: bs).length := by
              by_contra hc
              push_neg at hc
              exact hdrop (List.drop_eq_nil_of_le (le_of_lt hc))
            constructor
            · rw [List.length_append, List.length_take, Nat.min_eq_left hblen]
              omega
            · refine ⟨(b :: bs).take (n - data.length), rfl, ?_⟩
              rw [availableBytes]
              exact ⟨(b :: bs).drop (n - data.length) ++ availableBytes tail, by
                rw [← List.append_assoc, List.take_append_drop]⟩
        · rename_i hge
          obtain ⟨rfl, rfl⟩ : data = d ∧ RecvEvent.chunk (b :: bs) :: tail = rest := by
            simpa [Prod.mk.injEq] using h
          exact ⟨by omega, [], by simp, availableBytes (RecvEvent.chunk (b :: bs) :: tail),
            by simp⟩

/-- C3: for every requested byte count `n`, a successful `receive_all`
returns exactly `n` bytes, concatenated in arrival order from the stream
(an initial segment of the bytes available before any timeout/EOF); the
insufficient-data outcome is `none`, so a buffer shorter than `n` is never
returned. -/
theorem spec_c3_receive_all_exact (events : List RecvEvent) (n : Nat) (d : List Nat)
    (h : receive_all events n = some d) :
    d.length = n ∧ isLeadingSegment d (availableBytes events) := by
  cases haux : receive_all_aux n events [] with
  | mk r rest =>
    rw [receive_all, haux] at h
    simp only [] at h
    subst h
    obtain ⟨hlen, t, ht, hlead⟩ :=
      receive_all_aux_sound n events [] d rest haux (by simp)
    simp only [List.nil_append] at ht
    subst ht
    exact ⟨hlen, hlead⟩

theorem spec_c3_witness :
    receive_all [.chunk [5], .chunk [6, 7]] 3 = some [5, 6, 7] ∧
    ([5, 6, 7] : List Nat).length = 3 ∧
    isLeadingSegment [5, 6, 7] (availableBytes [.chunk [5], .chunk [6, 7]]) :=
  ⟨by decide,
   (spec_c3_receive_all_exact [.chunk [5], .chunk [6, 7]] 3 [5, 6, 7] (by decide)).1,
   (spec_c3_receive_all_exact [.chunk [5], .chunk [6, 7]] 3 [5, 6, 7] (by decide)).2⟩

/-- C4: whenever the 4-byte big-endian frame length field decodes to 0, the
session loop sends nothing, decodes no frame, raises no error, and simply
continues: the session from that point equals the session on the remaining
stream, immediately waiting for the next length field. -/
theorem spec_c4_keepalive (events rest : List RecvEvent) (lb : List Nat)
    (h4 : receive_all_aux 4 events [] = (some lb, rest))
    (hz : beVal lb = 0) :
    session_loop events = session_loop rest := by
  conv_lhs => rw [session_loop.eq_def]
  split
  · rename_i heq
    rw [h4] at heq
    simp at heq
  · rename_i lb2 rest' heq
    rw [h4] at heq
    obtain ⟨rfl, rfl⟩ : lb = lb2 ∧ rest = rest' := by
      simpa [Prod.mk.injEq, eq_comm] using heq
    rw [dif_pos hz]

theorem spec_c4_witness :
    (receive_all_aux 4 [.chunk [0, 0, 0, 0], .timeout] [] = (some [0, 0, 0, 0], [.timeout]) ∧
     beVal [0, 0, 0, 0] = 0) ∧
    session_loop [.chunk [0, 0, 0, 0], .timeout] = session_loop [.timeout] :=
  ⟨⟨by decide, by decide⟩,
   spec_c4_keepalive [.chunk [0, 0, 0, 0], .timeout] [.timeout] [0, 0, 0, 0]
     (by decide) (by decide)⟩

theorem spec_c1_witness :
    (1 ≤ 2 ∧ 2 ≤ 255 ∧ ([255, 254] : List Nat).length = 2) ∧
    handle_handshake [.chunk [0, 2, 255, 254]] = .ok [255, 254] [] ∧
    handle_client [.chunk [0, 2, 255, 254]] = ([[0x01]], .loopEnd .noDataLength) :=
  ⟨⟨by decide, by decide, by decide⟩,
    spec_c1_handshake 0 2 [255, 254] (by decide) (by decide) (by decide)⟩
